import Mathlib

/-!
# Verification of the subscription fetch core

A shallow embedding, over byte strings, of the subscription-fetching core:
the retriever (`Subscription.FetchAll`), the duplicate remover
(`Subscription.RemoveDuplicate`), the Wireguard link decoder
(`Wireguard.Parse` / `Wireguard.ConvertToGeneralConfig`), and the fetch
orchestrator (`FetchCommand`: `validateFlags`, `parseLinks`, `doFetch`,
`fetchAllSubscriptions`, `fetchFromFile`).

Go strings are byte sequences, so the embedding represents every string as
a `List Nat` of byte values.  External effects (the HTTP client, the
database, the output file) are oracles passed in as parameters; pure
string processing is translated function by function from the source.
-/

/-- A Go string: a sequence of bytes. -/
abbrev ByteStr := List Nat

/-- Byte string of an ASCII Lean string literal (each char is one byte). -/
def ascii (s : String) : ByteStr := s.data.map Char.toNat

/-- Go `unicode.IsSpace` restricted to the ASCII range, as used by
`strings.TrimSpace` on ASCII content: `\t \n \v \f \r` and space. -/
def isSpaceByte (b : Nat) : Bool := b == 9 || b == 10 || b == 11 || b == 12 || b == 13 || b == 32

/-- Go `strings.TrimSpace` on ASCII byte strings: drop leading and trailing
whitespace bytes. -/
def trimSpace (s : ByteStr) : ByteStr :=
  ((s.dropWhile isSpaceByte).reverse.dropWhile isSpaceByte).reverse

/-- Go `strings.Split(s, sep)` for a one-byte separator: the list of
(possibly empty) chunks between occurrences of `sep`.  On the empty string
it returns one empty chunk, as in Go. -/
def splitOnByte (sep : Nat) : ByteStr → List ByteStr
  | [] => [[]]
  | b :: rest =>
    if b = sep then [] :: splitOnByte sep rest
    else
      match splitOnByte sep rest with
      | [] => [[b]]
      | t :: ts => (b :: t) :: ts

/-- The line filtering shared by the retriever (`FetchAll`, lines 72-78) and
the file-list reader: split on newline, trim each line, keep non-empty
lines in order. -/
def filterLines (s : ByteStr) : List ByteStr :=
  ((splitOnByte 10 s).map trimSpace).filter (fun l => !l.isEmpty)

/-! ## Standard base64

Modelled from the spec: `utils.Base64Decode` (not under `src/`), described
as "attempt to decode it as standard base64".  Standard RFC 4648 alphabet
with `=` padding; any byte outside the alphabet, or a length that is not a
multiple of four, or padding anywhere but at the end, is a decode failure.
-/

/-- The byte encoding a 6-bit value in the standard base64 alphabet. -/
def b64index (n : Nat) : Nat :=
  if n < 26 then 65 + n
  else if n < 52 then 97 + (n - 26)
  else if n < 62 then 48 + (n - 52)
  else if n = 62 then 43
  else 47

/-- The 6-bit value of a standard-base64 alphabet byte, `none` for bytes
outside the alphabet (including the padding byte `=`). -/
def b64lookup (c : Nat) : Option Nat :=
  if 65 ≤ c ∧ c ≤ 90 then some (c - 65)
  else if 97 ≤ c ∧ c ≤ 122 then some (c - 71)
  else if 48 ≤ c ∧ c ≤ 57 then some (c + 4)
  else if c = 43 then some 62
  else if c = 47 then some 63
  else none

/-- Standard base64 encoding of a byte sequence. -/
def b64encode : ByteStr → ByteStr
  | [] => []
  | [b1] => [b64index (b1 / 4), b64index (b1 % 4 * 16), 61, 61]
  | [b1, b2] => [b64index (b1 / 4), b64index (b1 % 4 * 16 + b2 / 16), b64index (b2 % 16 * 4), 61]
  | b1 :: b2 :: b3 :: rest =>
    b64index (b1 / 4) :: b64index (b1 % 4 * 16 + b2 / 16) ::
      b64index (b2 % 16 * 4 + b3 / 64) :: b64index (b3 % 64) :: b64encode rest

/-- Standard base64 decoding; `none` on any malformed input. -/
def b64decode : ByteStr → Option ByteStr
  | [] => some []
  | c1 :: c2 :: c3 :: c4 :: rest =>
    match b64lookup c1, b64lookup c2 with
    | some n1, some n2 =>
      if c3 = 61 then
        if c4 = 61 ∧ rest = [] then some [n1 * 4 + n2 / 16] else none
      else
        match b64lookup c3 with
        | some n3 =>
          if c4 = 61 then
            if rest = [] then some [n1 * 4 + n2 / 16, n2 % 16 * 16 + n3 / 4] else none
          else
            match b64lookup c4 with
            | some n4 =>
              (b64decode rest).map
                (fun ds => (n1 * 4 + n2 / 16) :: (n2 % 16 * 16 + n3 / 4) :: (n3 % 4 * 64 + n4) :: ds)
            | none => none
        | none => none
    | _, _ => none
  | _ => none

/-- Body decoding step of `Subscription.FetchAll` (lines 61-78): try base64
first, fall back to the raw body, then split on newlines, trim, and drop
blank lines. -/
def decodeBody (body : ByteStr) : List ByteStr :=
  match b64decode body with
  | none => filterLines body
  | some d => filterLines d

/-! ## Deduplicator: `Subscription.RemoveDuplicate` -/

/-- The loop of `Subscription.RemoveDuplicate` (lines 86-93): walk the
links, keeping each item not yet in the seen set. -/
def removeDuplicateLoop (allKeys acc : List ByteStr) : List ByteStr → List ByteStr
  | [] => acc
  | item :: rest =>
    if item ∈ allKeys then removeDuplicateLoop allKeys acc rest
    else removeDuplicateLoop (item :: allKeys) (acc ++ [item]) rest

/-- `Subscription.RemoveDuplicate`: the returned link list.  The `verbose`
flag only controls a log line in the source; it is accepted and ignored,
exactly as it does not feed the returned sequence. -/
def removeDuplicate (_verbose : Bool) (configLinks : List ByteStr) : List ByteStr :=
  removeDuplicateLoop [] [] configLinks

/-- First-occurrence deduplication written from the spec's words ("drops
every subsequent repeat of an already-seen raw string", first-seen order
preserved); compared against `removeDuplicate` from the source. -/
def dedupeSpec : List ByteStr → List ByteStr
  | [] => []
  | x :: xs => x :: (dedupeSpec xs).filter (fun y => y ≠ x)

/-! ## Go `net/url` parsing

`Subscription.FetchAll` validates its URL with `url.Parse`, and
`Wireguard.Parse` reads user info, host, query and fragment from the same
parser.  The definitions below translate the relevant paths of Go's
`net/url` (`Parse`, `getScheme`, `parseAuthority`, `parseHost`,
`unescape`, `ParseQuery`) over byte strings. -/

/-- Go `strings.Cut`: the parts before and after the first occurrence of a
one-byte separator, and whether it was found. -/
def cut3 (sep : Nat) : ByteStr → ByteStr × ByteStr × Bool
  | [] => ([], [], false)
  | c :: rest =>
    if c = sep then ([], rest, true)
    else
      let r := cut3 sep rest
      (c :: r.1, r.2.1, r.2.2)

/-- Index of the last occurrence of a byte (Go `strings.LastIndex` for a
one-byte needle). -/
def lastIdxOf (b : Nat) : ByteStr → Option Nat
  | [] => none
  | c :: rest =>
    match lastIdxOf b rest with
    | some i => some (i + 1)
    | none => if c = b then some 0 else none

/-- Index of the first occurrence of a byte pattern (Go `strings.Index`). -/
def idxOfSeq (pat : ByteStr) : ByteStr → Option Nat
  | [] => if pat.isEmpty then some 0 else none
  | c :: rest =>
    if pat.isPrefixOf (c :: rest) then some 0
    else (idxOfSeq pat rest).map (· + 1)

def isAlphaByte (b : Nat) : Bool := (65 ≤ b && b ≤ 90) || (97 ≤ b && b ≤ 122)

def isDigitByte (b : Nat) : Bool := 48 ≤ b && b ≤ 57

def isAlphaNumByte (b : Nat) : Bool := isAlphaByte b || isDigitByte b

def isHexByte (b : Nat) : Bool :=
  isDigitByte b || (97 ≤ b && b ≤ 102) || (65 ≤ b && b ≤ 70)

/-- Value of a hex digit byte (Go `unhex`). -/
def unhex (b : Nat) : Nat :=
  if 48 ≤ b ∧ b ≤ 57 then b - 48
  else if 97 ≤ b ∧ b ≤ 102 then b - 87
  else b - 55

/-- Go `shouldEscape(c, encodeHost)`: bytes that may NOT appear raw in a
host component.  Allowed are alphanumerics, the unreserved `-._~`, and the
sub-delims plus `:[]<>"` that `net/url` special-cases for hosts. -/
def shouldEscapeHost (b : Nat) : Bool :=
  !(isAlphaNumByte b || [45, 95, 46, 126].contains b ||
    [33, 36, 38, 39, 40, 41, 42, 43, 44, 59, 61, 58, 91, 93, 60, 62, 34].contains b)

/-- The escape contexts of Go `net/url` that this model distinguishes.  In
`unescape` only `host`, `zone` and `queryComponent` behave specially; the
other modes validate `%xx` well-formedness alone. -/
inductive EscMode
  | path | pathSegment | host | zone | userPassword | queryComponent | fragment
deriving DecidableEq

/-- Go `net/url.unescape`: percent-decode, rejecting malformed `%xx`; in
`host` mode reject `%xx` below `0x80` other than `%25` and reject raw
bytes a host must escape; in `zone` mode similarly; in `queryComponent`
mode `+` decodes to space. -/
def unescape (mode : EscMode) : ByteStr → Option ByteStr
  | 37 :: h1 :: h2 :: rest =>
    if !(isHexByte h1 && isHexByte h2) then none
    else if mode = .host ∧ unhex h1 < 8 ∧ ¬(h1 = 50 ∧ h2 = 53) then none
    else
      let v := unhex h1 * 16 + unhex h2
      if mode = .zone ∧ ¬(h1 = 50 ∧ h2 = 53) ∧ v ≠ 32 ∧ shouldEscapeHost v then none
      else (unescape mode rest).map (v :: ·)
  | 37 :: _ => none
  | 43 :: rest => (unescape mode rest).map ((if mode = .queryComponent then 32 else 43) :: ·)
  | c :: rest =>
    if (mode = .host ∨ mode = .zone) ∧ c < 128 ∧ shouldEscapeHost c then none
    else (unescape mode rest).map (c :: ·)
  | [] => some []

/-- Go `getScheme`: split a leading `scheme:`; `none` is the "missing
protocol scheme" error (a colon at position zero); `some ([], s)` means no
scheme was present. -/
def getSchemeAux (orig acc : ByteStr) : ByteStr → Option (ByteStr × ByteStr)
  | [] => some ([], orig)
  | c :: rest =>
    if isAlphaByte c then getSchemeAux orig (acc ++ [c]) rest
    else if isDigitByte c || c = 43 || c = 45 || c = 46 then
      if acc.isEmpty then some ([], orig) else getSchemeAux orig (acc ++ [c]) rest
    else if c = 58 then
      if acc.isEmpty then none else some (acc, rest)
    else some ([], orig)

def getScheme (s : ByteStr) : Option (ByteStr × ByteStr) := getSchemeAux s [] s

def toLowerAscii (s : ByteStr) : ByteStr :=
  s.map (fun b => if 65 ≤ b ∧ b ≤ 90 then b + 32 else b)

/-- Go `validOptionalPort`: empty, or `:` followed by decimal digits. -/
def validOptionalPort : ByteStr → Bool
  | [] => true
  | 58 :: digits => digits.all isDigitByte
  | _ => false

/-- Bytes Go `validUserinfo` accepts: alphanumerics and `-._:~!$&'()*+,;=%@`. -/
def validUserinfoByte (b : Nat) : Bool :=
  isAlphaNumByte b ||
    [45, 46, 95, 58, 126, 33, 36, 38, 39, 40, 41, 42, 43, 44, 59, 61, 37, 64].contains b

def validUserinfo (s : ByteStr) : Bool := s.all validUserinfoByte

/-- Go `parseHost`: validate an optional port, handle `[...]` IPv6 forms
(including a `%25` zone), and percent-decode in host mode. -/
def parseHost (host : ByteStr) : Option ByteStr :=
  match host with
  | 91 :: _ =>
    match lastIdxOf 93 host with
    | none => none
    | some i =>
      let colonPort := host.drop (i + 1)
      if !validOptionalPort colonPort then none
      else
        match idxOfSeq [37, 50, 53] (host.take i) with
        | some zone =>
          match unescape .host (host.take zone), unescape .zone ((host.take i).drop zone),
              unescape .host (host.drop i) with
          | some h1, some h2, some h3 => some (h1 ++ h2 ++ h3)
          | _, _, _ => none
        | none => unescape .host host
  | _ =>
    match lastIdxOf 58 host with
    | some i => if !validOptionalPort (host.drop i) then none else unescape .host host
    | none => unescape .host host

/-- The user/host information `parseAuthority` produces. -/
structure AuthorityParts where
  hasUser : Bool
  username : ByteStr
  hasPass : Bool
  password : ByteStr
  host : ByteStr
deriving DecidableEq

/-- Go `parseAuthority`: split at the last `@`, validate and decode the
user info, parse the host. -/
def parseAuthority (authority : ByteStr) : Option AuthorityParts :=
  match lastIdxOf 64 authority with
  | none =>
    match parseHost authority with
    | none => none
    | some h => some ⟨false, [], false, [], h⟩
  | some i =>
    match parseHost (authority.drop (i + 1)) with
    | none => none
    | some h =>
      let userinfo := authority.take i
      if !validUserinfo userinfo then none
      else if !userinfo.contains 58 then
        match unescape .userPassword userinfo with
        | none => none
        | some u => some ⟨true, u, false, [], h⟩
      else
        let c := cut3 58 userinfo
        match unescape .userPassword c.1, unescape .userPassword c.2.1 with
        | some u, some p => some ⟨true, u, true, p, h⟩
        | _, _ => none

/-- The parsed URL record (`net/url.URL`), with the user info flattened. -/
structure GoUrl where
  scheme : ByteStr := []
  opq : ByteStr := []
  hasUser : Bool := false
  username : ByteStr := []
  hasPass : Bool := false
  password : ByteStr := []
  host : ByteStr := []
  path : ByteStr := []
  rawQuery : ByteStr := []
  forceQuery : Bool := false
  fragment : ByteStr := []
deriving DecidableEq

def containsCTLByte (s : ByteStr) : Bool := s.any (fun b => b < 32 || b == 127)

/-- Go `net/url.parse` with `viaRequest = false`: everything of `Parse`
except the fragment, which `Parse` splits off first. -/
def urlParseInner (rawURL : ByteStr) : Option GoUrl :=
  if containsCTLByte rawURL then none
  else if rawURL = [42] then some { path := [42] }
  else
    match getScheme rawURL with
    | none => none
    | some (scheme0, rest0) =>
      let scheme := toLowerAscii scheme0
      let fq : Bool := rest0.getLast? = some 63 ∧ !(rest0.dropLast.contains 63)
      let (rest, rawQuery, forceQuery) :=
        if fq then (rest0.dropLast, ([] : ByteStr), true)
        else
          let c := cut3 63 rest0
          (c.1, c.2.1, false)
      if ¬ rest.head? = some 47 ∧ scheme ≠ [] then
        some { scheme := scheme, opq := rest, rawQuery := rawQuery, forceQuery := forceQuery }
      else if ¬ rest.head? = some 47 ∧ scheme = [] ∧ ((cut3 47 rest).1).contains 58 then
        none
      else if (scheme ≠ [] ∨ ¬ [47, 47, 47].isPrefixOf rest) ∧ [47, 47].isPrefixOf rest then
        let afterSlashes := rest.drop 2
        let c := cut3 47 afterSlashes
        let authority := if c.2.2 then c.1 else afterSlashes
        let rest2 : ByteStr := if c.2.2 then 47 :: c.2.1 else []
        match parseAuthority authority with
        | none => none
        | some ap =>
          match unescape .path rest2 with
          | none => none
          | some p =>
            some { scheme := scheme, hasUser := ap.hasUser, username := ap.username,
                   hasPass := ap.hasPass, password := ap.password, host := ap.host,
                   path := p, rawQuery := rawQuery, forceQuery := forceQuery }
      else
        match unescape .path rest with
        | none => none
        | some p =>
          some { scheme := scheme, path := p, rawQuery := rawQuery, forceQuery := forceQuery }

/-- Go `net/url.Parse`: split the fragment at the first `#`, parse the
rest, then store the percent-decoded fragment (a bad escape in the
fragment fails the whole parse). -/
def goUrlParse (rawURL : ByteStr) : Option GoUrl :=
  let c := cut3 35 rawURL
  match urlParseInner c.1 with
  | none => none
  | some url =>
    if c.2.1 = [] then some url
    else
      match unescape .fragment c.2.1 with
      | none => none
      | some f => some { url with fragment := f }

/-- Go `URL.IsAbs`: a URL is absolute iff its scheme is non-empty. -/
def GoUrl.isAbs (u : GoUrl) : Bool := !u.scheme.isEmpty

/-- Go `url.ParseQuery` as used via `uri.Query()`: split on `&`, skip
segments containing `;`, skip empty segments, cut each at the first `=`,
query-unescape key and value, and skip the pair if either fails. -/
def parseQuery (query : ByteStr) : List (ByteStr × ByteStr) :=
  (splitOnByte 38 query).filterMap (fun seg =>
    if seg.contains 59 then none
    else if seg.isEmpty then none
    else
      let c := cut3 61 seg
      match unescape .queryComponent c.1, unescape .queryComponent c.2.1 with
      | some k, some v => some (k, v)
      | _, _ => none)

/-- `uri.Query()[tag]` followed by `values[0]`: the value of the first
query pair with the given key. -/
def queryLookup (q : List (ByteStr × ByteStr)) (key : ByteStr) : Option ByteStr :=
  (q.find? (fun p => p.1 == key)).map (·.2)

/-! ## The Wireguard link decoder (`Wireguard.Parse`) -/

/-- Go `fmt.Sscanf(value, "%d", &intValue)` into an `int`, with the error
ignored: skip leading spaces, optional sign, then decimal digits; `0` when
no digit is found or the value overflows 64-bit (both leave `intValue` at
its zero value). -/
def goSscanfD (s : ByteStr) : Int :=
  let s1 := s.dropWhile isSpaceByte
  let signed : Bool × ByteStr :=
    match s1 with
    | 45 :: r => (true, r)
    | 43 :: r => (false, r)
    | r => (false, r)
  let ds := signed.2.takeWhile isDigitByte
  if ds.isEmpty then 0
  else
    let n : Nat := ds.foldl (fun a d => a * 10 + (d - 48)) 0
    let v : Int := if signed.1 then -(n : Int) else (n : Int)
    if v < -(2 ^ 63) ∨ 2 ^ 63 ≤ v then 0 else v

/-- Modelled from the spec: `protocol.WireguardIdentifier` (the constant
lives in `pkg/protocol`, not under `src/`): the fixed textual identifier
("address scheme") that dispatches a link to the Wireguard variant. -/
def wireguardIdentifier : ByteStr := ascii "wireguard://"

/-- The fields of the `Wireguard` struct that `Parse` populates. -/
structure WireguardCfg where
  remark : ByteStr := []
  secretKey : ByteStr := []
  endpoint : ByteStr := []
  publicKey : ByteStr := []
  localAddress : ByteStr := []
  mtu : Int := 0
deriving DecidableEq

/-- The body of `Wireguard.Parse` (part_005 lines 32-74) after the prefix
check and `url.Parse` succeeded.

* `SecretKey` is `url.PathUnescape(uri.User.String())`: `User.String()`
  re-escapes the decoded user info, so the unescape always succeeds and
  the net effect is the decoded `user[:password]` text.
* The reflection loop over json-tagged fields is modelled from the spec
  ("a protocol-defined set of optional fields read from query parameters,
  string or integer, left at the zero value if missing") with the declared
  fields `publickey`/`address` (strings) and `mtu` (int32); the struct
  declaration itself is not under `src/`.
* A query `mtu` value outside `int32` makes `reflect.Value.SetInt` panic,
  so `Parse` produces no value; that is `none` here.
* The remark: `uri.Fragment` is already percent-decoded by `url.Parse`,
  and `url.PathUnescape` is applied to it again; if that second decode
  fails the once-decoded fragment is kept verbatim. -/
def wireguardFromUri (uri : GoUrl) : Option WireguardCfg :=
  let secretKey :=
    if uri.hasUser then uri.username ++ (if uri.hasPass then 58 :: uri.password else [])
    else []
  let q := parseQuery uri.rawQuery
  let publicKey := (queryLookup q (ascii "publickey")).getD []
  let localAddress := (queryLookup q (ascii "address")).getD []
  let mtu : Int :=
    match queryLookup q (ascii "mtu") with
    | none => 0
    | some v => goSscanfD v
  if mtu < -(2 ^ 31) ∨ 2 ^ 31 ≤ mtu then none
  else
    let remark :=
      match unescape .pathSegment uri.fragment with
      | none => uri.fragment
      | some r => r
    some { remark := remark, secretKey := secretKey, endpoint := uri.host,
           publicKey := publicKey, localAddress := localAddress, mtu := mtu }

/-- `Wireguard.Parse`: the identifier prefix check and `url.Parse`,
followed by the field population of `wireguardFromUri`. -/
def wireguardParse (link : ByteStr) : Option WireguardCfg :=
  if ¬ wireguardIdentifier.isPrefixOf link then none
  else (goUrlParse link).bind wireguardFromUri

/-- The canonical summary record (`protocol.GeneralConfig`), restricted to
the fields the fetch pipeline reads (`g.Protocol`, `g.Remark` in
`parseLinks`; `g.Address` in listings).  Zero values mirror Go's
zero-initialised named return. -/
structure GeneralConfig where
  protocol : ByteStr := []
  remark : ByteStr := []
  address : ByteStr := []
deriving DecidableEq

/-- `Wireguard.ConvertToGeneralConfig` (part_005 lines 91-96): sets only
`Protocol` and `Address`; every other field keeps its zero value. -/
def convertToGeneralConfig (w : WireguardCfg) : GeneralConfig :=
  { protocol := ascii "wireguard", address := w.endpoint }

/-- The canonical summary the registry produces for a wireguard link. -/
def wireguardSummary (link : ByteStr) : Option GeneralConfig :=
  (wireguardParse link).map convertToGeneralConfig

/-- The raw (still escaped) fragment text of a link: everything after the
first `#`. -/
def afterHash (link : ByteStr) : ByteStr := (cut3 35 link).2.1

/-! ## The retriever (`Subscription.FetchAll`) -/

inductive FetchErr
  | invalidURL | transport | httpStatus (code : Int)
deriving DecidableEq

structure HttpResp where
  statusCode : Int
  body : ByteStr

deriving instance DecidableEq for Except

/-- Result of `FetchAll` plus the ghost observation of whether an HTTP
request was issued (`r.Send` reached). -/
structure FetchOut where
  result : Except FetchErr (List ByteStr)
  requested : Bool
deriving DecidableEq

/-- `Subscription.FetchAll` (part_004 lines 26-82) with the HTTP client as
an oracle from the parsed URL to an optional response (`none` is a
transport error).  The user agent, method and proxy only shape the request
and are not observable in any claim.  Status codes outside 200-299 fail;
otherwise the body is decoded by `decodeBody`. -/
def fetchAllM (url : ByteStr) (net : GoUrl → Option HttpResp) : FetchOut :=
  match goUrlParse url with
  | none => ⟨.error .invalidURL, false⟩
  | some u =>
    match net u with
    | none => ⟨.error .transport, true⟩
    | some resp =>
      if resp.statusCode < 200 ∨ 300 ≤ resp.statusCode then
        ⟨.error (.httpStatus resp.statusCode), true⟩
      else ⟨.ok (decodeBody resp.body), true⟩

/-! ## The fetch orchestrator (`FetchCommand`) -/

/-- One row of `database.SubscriptionConfig` as `parseLinks` builds it
(the last-seen timestamp, set uniformly to `now`, is omitted). -/
structure SubConfig where
  subscriptionID : Option Int
  configLink : ByteStr
  protocol : Option ByteStr
  remark : Option ByteStr
deriving DecidableEq

/-- `sql.NullString{String: s, Valid: s != ""}`. -/
def nullStringOf (s : ByteStr) : Option ByteStr := if s.isEmpty then none else some s

/-- `FetchCommand.parseLinks` (part_002 lines 380-416).  The protocol
registry (`fc.core.CreateProtocol` + `proto.Parse()` +
`ConvertToGeneralConfig`, wrapped in `recover`) is the oracle
`decodeProto`; `none` covers a registry miss, a parse error and a panic
alike, and leaves the row's protocol and remark at `Valid: false`. -/
def parseLinks (decodeProto : ByteStr → Option GeneralConfig) (rawLinks : List ByteStr)
    (subID : Option Int) : List SubConfig :=
  rawLinks.filterMap (fun link =>
    let t := trimSpace link
    if t.isEmpty then none
    else
      match decodeProto t with
      | some g =>
        some { subscriptionID := subID, configLink := t,
               protocol := nullStringOf g.protocol, remark := nullStringOf g.remark }
      | none =>
        some { subscriptionID := subID, configLink := t, protocol := none, remark := none })

/-- `FetchConfig`: the flag values driving one run. -/
structure RunCfg where
  subscriptionID : Int := 0
  subscriptionURL : ByteStr := []
  userAgent : ByteStr := []
  outputFile : ByteStr := ascii "configs.txt"
  proxy : ByteStr := []
  fetchAll : Bool := false
  fileInput : ByteStr := []
  workers : Int := 3
deriving DecidableEq

inductive CfgErr
  | noSelector
  | workersTooLow (n : Int)
  | workersTooHigh (n : Int)
deriving DecidableEq

/-- `FetchCommand.validateFlags` (part_002 lines 91-102): require one
selector, then `workers` within `[1, 20]`. -/
def validateFlags (c : RunCfg) : Option CfgErr :=
  if c.subscriptionID = 0 ∧ c.subscriptionURL = [] ∧ c.fetchAll = false ∧ c.fileInput = [] then
    some .noSelector
  else if c.workers < 1 then some (.workersTooLow c.workers)
  else if c.workers > 20 then some (.workersTooHigh c.workers)
  else none

/-- Cobra runs `PreRunE` (`validateFlags`) before `RunE`: the run body is
reached only when validation passes. -/
def fetchCommandRun {α : Type} (c : RunCfg) (runner : RunCfg → α) : Except CfgErr α :=
  match validateFlags c with
  | some e => .error e
  | none => .ok (runner c)

/-- One `database.Subscription` row as the orchestrator reads it. -/
structure DbSub where
  id : Int
  url : ByteStr
  remark : ByteStr := []
  userAgent : ByteStr := []
  enabled : Bool
deriving DecidableEq

inductive RunErr
  | fetchFailed | saveDb | writeFile | listDb | noUrls
  | sourcesFailed (failed total : Nat)
deriving DecidableEq

/-- The external collaborators of one run: the HTTP client, the protocol
registry, `database.UpsertSubscriptionConfigs` (per source URL),
`database.UpdateSubscriptionFetched`, `utils.WriteIntoFile`, and
`database.ListSubscriptions`. -/
structure Oracles where
  net : GoUrl → Option HttpResp
  decodeProto : ByteStr → Option GeneralConfig
  upsertOk : ByteStr → Bool
  tsOk : Bool := true
  writeOk : Bool := true
  listOk : Bool := true

/-- Aggregate state of a multi-source run: the mutex-guarded accumulators
(`allConfigs`, `totalRaw`), the atomic `failedCount`, the ghost list of
subscription ids whose fetched-at timestamp update was attempted, and the
run's final outcome. -/
structure MultiResult where
  allConfigs : List SubConfig
  totalRaw : Nat
  failedCount : Nat
  tsAttempted : List Int
  outcome : Option RunErr
deriving DecidableEq

def emptyResult : MultiResult := ⟨[], 0, 0, [], none⟩

/-- The per-source worker body shared by `fetchAllSubscriptions` (lines
192-238) and `fetchFromFile` (lines 286-324): fetch, parse, upsert when
non-empty (an upsert failure counts the source as failed and contributes
nothing), attempt the timestamp update in `--all` mode, then accumulate.
The pool's completion order only permutes commutative accumulations, so
the fold is sequential. -/
def runSource (o : Oracles) (url : ByteStr) (subID : Option Int) (doTs : Bool)
    (acc : MultiResult) : MultiResult :=
  match (fetchAllM url o.net).result with
  | .error _ => { acc with failedCount := acc.failedCount + 1 }
  | .ok rawLinks =>
    let dbConfigs := parseLinks o.decodeProto rawLinks subID
    if dbConfigs.isEmpty then
      { acc with allConfigs := acc.allConfigs ++ dbConfigs,
                 totalRaw := acc.totalRaw + rawLinks.length }
    else if !o.upsertOk url then { acc with failedCount := acc.failedCount + 1 }
    else
      let withTs := if doTs then { acc with tsAttempted := acc.tsAttempted ++ [subID.getD 0] }
                    else acc
      { withTs with allConfigs := withTs.allConfigs ++ dbConfigs,
                    totalRaw := withTs.totalRaw + rawLinks.length }

/-- The end of both fan-out modes (lines 246-256 / 332-342): a configured
output file with at least one config is written first (its failure fails
the run), then a non-zero failure counter fails the run. -/
def finishRun (outputFile : ByteStr) (writeOk : Bool) (res : MultiResult) (total : Nat) :
    Option RunErr :=
  if outputFile ≠ [] ∧ ¬ res.allConfigs.isEmpty ∧ writeOk = false then some .writeFile
  else if res.failedCount > 0 then some (.sourcesFailed res.failedCount total)
  else none

/-- `FetchCommand.fetchAllSubscriptions` (part_002 lines 153-257). -/
def fetchAllSubscriptionsM (c : RunCfg) (subs : List DbSub) (o : Oracles) : MultiResult :=
  if o.listOk = false then { emptyResult with outcome := some .listDb }
  else
    let enabled := subs.filter (·.enabled)
    if enabled.isEmpty then emptyResult
    else
      let res := enabled.foldl (fun acc sub => runSource o sub.url (some sub.id) true acc)
        emptyResult
      { res with outcome := finishRun c.outputFile o.writeOk res enabled.length }

/-- Modelled from the spec: `utils.ParseFileByNewline` (not under `src/`),
"one URL per line, via the same non-empty-line filtering as §4.1 step 5". -/
def parseFileByNewline (content : ByteStr) : List ByteStr := filterLines content

/-- `FetchCommand.fetchFromFile` (part_002 lines 260-343). -/
def fetchFromFileM (c : RunCfg) (fileContent : ByteStr) (o : Oracles) : MultiResult :=
  let urls := parseFileByNewline fileContent
  if urls.isEmpty then { emptyResult with outcome := some .noUrls }
  else
    let res := urls.foldl (fun acc u => runSource o u none false acc) emptyResult
    { res with outcome := finishRun c.outputFile o.writeOk res urls.length }

/-- Result of a single-source run plus the ghost observation of whether
the subscription's fetched-at timestamp update was attempted. -/
structure SingleResult where
  outcome : Option RunErr
  tsAttempted : Bool
deriving DecidableEq

/-- `FetchCommand.doFetch` (part_002 lines 346-377): fetch, parse, return
success early when no configs parsed, upsert (failure fails the run),
attempt the timestamp update when linked to a subscription (`o.tsOk` is
deliberately never read: the source only logs that error), then write the
output file when configured (failure fails the run). -/
def doFetchM (outputFile url : ByteStr) (subID : Option Int) (o : Oracles) : SingleResult :=
  match (fetchAllM url o.net).result with
  | .error _ => ⟨some .fetchFailed, false⟩
  | .ok rawLinks =>
    let dbConfigs := parseLinks o.decodeProto rawLinks subID
    if dbConfigs.isEmpty then ⟨none, false⟩
    else if !o.upsertOk url then ⟨some .saveDb, false⟩
    else
      let ts := subID.isSome
      if outputFile ≠ [] ∧ o.writeOk = false then ⟨some .writeFile, ts⟩
      else ⟨none, ts⟩

/-- The configs one source contributes to the aggregate list: nothing when
its fetch or its upsert failed, its parsed configs otherwise. -/
def sourceConfigs (o : Oracles) (url : ByteStr) (subID : Option Int) : List SubConfig :=
  match (fetchAllM url o.net).result with
  | .error _ => []
  | .ok rawLinks =>
    let cfgs := parseLinks o.decodeProto rawLinks subID
    if cfgs.isEmpty then cfgs
    else if !o.upsertOk url then []
    else cfgs

/-- The raw-link count one source contributes to the aggregate total. -/
def sourceRaw (o : Oracles) (url : ByteStr) (subID : Option Int) : Nat :=
  match (fetchAllM url o.net).result with
  | .error _ => 0
  | .ok rawLinks =>
    let cfgs := parseLinks o.decodeProto rawLinks subID
    if cfgs.isEmpty then rawLinks.length
    else if !o.upsertOk url then 0
    else rawLinks.length

/-- Whether one source counts as failed: its fetch failed, or it had
configs and its upsert failed. -/
def sourceFailed (o : Oracles) (url : ByteStr) (subID : Option Int) : Bool :=
  match (fetchAllM url o.net).result with
  | .error _ => true
  | .ok rawLinks =>
    let cfgs := parseLinks o.decodeProto rawLinks subID
    !cfgs.isEmpty && !o.upsertOk url

/-- The timestamp-update attempts one source contributes (at most its own
subscription id, when its fetch and upsert both succeeded). -/
def sourceTs (o : Oracles) (url : ByteStr) (subID : Option Int) : List Int :=
  match (fetchAllM url o.net).result with
  | .error _ => []
  | .ok rawLinks =>
    let cfgs := parseLinks o.decodeProto rawLinks subID
    if cfgs.isEmpty then []
    else if !o.upsertOk url then []
    else [subID.getD 0]

/-! ## Auxiliary predicates and concrete inputs used in the claims -/

/-- Whether a validation result rejects the worker count (as opposed to
accepting it or rejecting the selector). -/
def rejectsWorkers : Option CfgErr → Bool
  | some (.workersTooLow _) => true
  | some (.workersTooHigh _) => true
  | _ => false

/-- Whether a run result is a failure outcome. -/
def exceptFailed {e a : Type} : Except e a → Bool
  | .error _ => true
  | .ok _ => false

/-- Generalisation of the `RemoveDuplicate` loop result: the kept items of
`l` given an initial seen set. -/
def dedupeFrom (seen : List ByteStr) : List ByteStr → List ByteStr
  | [] => []
  | x :: xs => if x ∈ seen then dedupeFrom seen xs else x :: dedupeFrom (x :: seen) xs

/-- An HTTP oracle always answering 200 with one proxy link. -/
def netVless : GoUrl → Option HttpResp := fun _ => some ⟨200, ascii "vless://x"⟩

/-- An HTTP oracle always answering 200 with an empty body. -/
def netEmptyBody : GoUrl → Option HttpResp := fun _ => some ⟨200, []⟩

/-- An HTTP oracle whose transport always fails. -/
def netDown : GoUrl → Option HttpResp := fun _ => none

/-- A protocol registry that recognises nothing. -/
def decodeNone : ByteStr → Option GeneralConfig := fun _ => none

/-- A store whose upserts always succeed. -/
def upsertAlways : ByteStr → Bool := fun _ => true

def oraVless : Oracles :=
  { net := netVless, decodeProto := decodeNone, upsertOk := upsertAlways }

def oraVlessNoWrite : Oracles := { oraVless with writeOk := false }

def oraEmptyBody : Oracles := { oraVless with net := netEmptyBody }

def subA : DbSub := { id := 1, url := ascii "http://a", enabled := true }

def subDisabled : DbSub := { id := 2, url := ascii "http://b", enabled := false }

def cfgDefault : RunCfg := {}

def cfgAll0 : RunCfg := { fetchAll := true, workers := 0 }

def cfgAll3 : RunCfg := { fetchAll := true, workers := 3 }

def runnerA : RunCfg → Int := fun _ => 0

def runnerB : RunCfg → Int := fun _ => 1

/-- A URL containing a control byte: Go `url.Parse` rejects it. -/
def ctlUrl : ByteStr := [104, 127]

/-- A relative URL: Go `url.Parse` accepts it with an empty scheme. -/
def relUrl : ByteStr := ascii "example.com"

def wgHomeLink : ByteStr := ascii "wireguard://k@1.2.3.4:51820#Home"

/-- The Wireguard record `Parse` produces for `wgHomeLink`. -/
def wgHomeCfg : WireguardCfg :=
  { remark := ascii "Home", secretKey := ascii "k", endpoint := ascii "1.2.3.4:51820" }

/-- A link whose fragment `%2541` percent-decodes to `%41`. -/
def wgEscLink : ByteStr := ascii "wireguard://k@h#%2541"

/-- A link whose fragment `%zz` is not a valid percent escape. -/
def wgBadFragLink : ByteStr := ascii "wireguard://k@h#%zz"

/-- A plain two-line link list that is not itself valid base64. -/
def plainLinks : ByteStr := ascii "vless://u@h:443#A\nvmess://x"

/-- A one-line body that happens to be valid base64 (of `vless://x`). -/
def b64SelfDecoding : ByteStr := ascii "dmxlc3M6Ly94"

/-! ## Round trip of standard base64 -/

theorem b64lookup_b64index : ∀ n < 64, b64lookup (b64index n) = some n := by decide

theorem b64index_ne_pad : ∀ n < 64, b64index n ≠ 61 := by decide

theorem b64decode_b64encode : ∀ bs : ByteStr, (∀ b ∈ bs, b < 256) →
    b64decode (b64encode bs) = some bs
  | [], _ => rfl
  | [b1], h => by
    have hb1 : b1 < 256 := h b1 (by simp)
    have e1 := b64lookup_b64index (b1 / 4) (by omega)
    have e2 := b64lookup_b64index (b1 % 4 * 16) (by omega)
    simp [b64encode, b64decode, e1, e2]
    omega
  | [b1, b2], h => by
    have hb1 : b1 < 256 := h b1 (by simp)
    have hb2 : b2 < 256 := h b2 (by simp)
    have e1 := b64lookup_b64index (b1 / 4) (by omega)
    have e2 := b64lookup_b64index (b1 % 4 * 16 + b2 / 16) (by omega)
    have e3 := b64lookup_b64index (b2 % 16 * 4) (by omega)
    have ne3 := b64index_ne_pad (b2 % 16 * 4) (by omega)
    simp [b64encode, b64decode, e1, e2, e3, ne3]
    omega
  | [b1, b2, b3], h => by
    have hb1 : b1 < 256 := h b1 (by simp)
    have hb2 : b2 < 256 := h b2 (by simp)
    have hb3 : b3 < 256 := h b3 (by simp)
    have e1 := b64lookup_b64index (b1 / 4) (by omega)
    have e2 := b64lookup_b64index (b1 % 4 * 16 + b2 / 16) (by omega)
    have e3 := b64lookup_b64index (b2 % 16 * 4 + b3 / 64) (by omega)
    have e4 := b64lookup_b64index (b3 % 64) (by omega)
    have ne3 := b64index_ne_pad (b2 % 16 * 4 + b3 / 64) (by omega)
    have ne4 := b64index_ne_pad (b3 % 64) (by omega)
    simp [b64encode, b64decode, e1, e2, e3, e4, ne3, ne4]
    omega
  | b1 :: b2 :: b3 :: b4 :: rest, h => by
    have hb1 : b1 < 256 := h b1 (by simp)
    have hb2 : b2 < 256 := h b2 (by simp)
    have hb3 : b3 < 256 := h b3 (by simp)
    have e1 := b64lookup_b64index (b1 / 4) (by omega)
    have e2 := b64lookup_b64index (b1 % 4 * 16 + b2 / 16) (by omega)
    have e3 := b64lookup_b64index (b2 % 16 * 4 + b3 / 64) (by omega)
    have e4 := b64lookup_b64index (b3 % 64) (by omega)
    have ne3 := b64index_ne_pad (b2 % 16 * 4 + b3 / 64) (by omega)
    have ne4 := b64index_ne_pad (b3 % 64) (by omega)
    have ih := b64decode_b64encode (b4 :: rest) (fun b hb => h b (by simp at hb ⊢; tauto))
    simp [b64encode, b64decode, e1, e2, e3, e4, ne3, ne4, ih]
    omega

/-! ## The deduplicator returns first occurrences -/

theorem removeDuplicateLoop_eq (l : List ByteStr) : ∀ seen acc,
    removeDuplicateLoop seen acc l = acc ++ dedupeFrom seen l := by
  induction l with
  | nil => intro seen acc; simp [removeDuplicateLoop, dedupeFrom]
  | cons x xs ih =>
    intro seen acc
    by_cases hx : x ∈ seen
    · simp [removeDuplicateLoop, dedupeFrom, hx, ih]
    · simp [removeDuplicateLoop, dedupeFrom, hx, ih]

theorem dedupeFrom_eq_filter (l : List ByteStr) : ∀ seen,
    dedupeFrom seen l = (dedupeSpec l).filter (fun y => !seen.contains y) := by
  induction l with
  | nil => intro seen; simp [dedupeFrom, dedupeSpec]
  | cons x xs ih =>
    intro seen
    by_cases hx : x ∈ seen
    · have hcx : seen.contains x = true := by simp [hx]
      simp only [dedupeFrom, if_pos hx, dedupeSpec, List.filter_cons, hcx, Bool.not_true,
        List.filter_filter, ih seen]
      refine List.filter_congr (fun y _ => ?_)
      by_cases hyx : y = x
      · subst hyx; simp [hx]
      · simp [hyx]
    · have hcx : seen.contains x = false := by simp [hx]
      simp only [dedupeFrom, if_neg hx, dedupeSpec, List.filter_cons, hcx, Bool.not_false,
        List.filter_filter, ih (x :: seen)]
      refine congrArg (x :: ·) (List.filter_congr (fun y _ => ?_))
      by_cases hyx : y = x
      · subst hyx; simp
      · simp [hyx, Ne.symm hyx]

theorem removeDuplicate_eq_dedupeSpec (v : Bool) (l : List ByteStr) :
    removeDuplicate v l = dedupeSpec l := by
  rw [removeDuplicate, removeDuplicateLoop_eq, dedupeFrom_eq_filter]
  simp

theorem mem_dedupeSpec (x : ByteStr) (l : List ByteStr) : x ∈ dedupeSpec l ↔ x ∈ l := by
  induction l with
  | nil => simp [dedupeSpec]
  | cons a as ih =>
    simp only [dedupeSpec, List.mem_cons, List.mem_filter, ih]
    by_cases hxa : x = a
    · simp [hxa]
    · simp [hxa]

theorem dedupeSpec_nodup (l : List ByteStr) : (dedupeSpec l).Nodup := by
  induction l with
  | nil => simp [dedupeSpec]
  | cons a as ih =>
    simp only [dedupeSpec, List.nodup_cons]
    refine ⟨fun hmem => ?_, ih.filter _⟩
    simp at hmem

theorem dedupeSpec_length (l : List ByteStr) : (dedupeSpec l).length = l.toFinset.card := by
  have hfin : (dedupeSpec l).toFinset = l.toFinset := by
    ext x; simp [List.mem_toFinset, mem_dedupeSpec]
  calc (dedupeSpec l).length = (dedupeSpec l).toFinset.card :=
        (List.toFinset_card_of_nodup (dedupeSpec_nodup l)).symm
    _ = l.toFinset.card := by rw [hfin]

/-! ## parseLinks keeps every non-blank link -/

theorem parseLinks_map_configLink (d : ByteStr → Option GeneralConfig) (rawLinks : List ByteStr)
    (subID : Option Int) :
    (parseLinks d rawLinks subID).map (·.configLink) =
      (rawLinks.map trimSpace).filter (fun l => !l.isEmpty) := by
  induction rawLinks with
  | nil => rfl
  | cons x xs ih =>
    by_cases hx : trimSpace x = []
    · simpa [parseLinks, List.filterMap_cons, hx] using ih
    · cases hd : d (trimSpace x) <;>
        simpa [parseLinks, List.filterMap_cons, hx, hd] using ih

theorem parseLinks_mem (d : ByteStr → Option GeneralConfig) (rawLinks : List ByteStr)
    (subID : Option Int) (cfg : SubConfig) (hm : cfg ∈ parseLinks d rawLinks subID) :
    cfg.subscriptionID = subID ∧
      (d cfg.configLink = none → cfg.protocol = none ∧ cfg.remark = none) := by
  simp only [parseLinks, List.mem_filterMap] at hm
  obtain ⟨x, _, hfx⟩ := hm
  by_cases ht : trimSpace x = []
  · simp [ht] at hfx
  · cases hd : d (trimSpace x) with
    | none =>
      have : { subscriptionID := subID, configLink := trimSpace x, protocol := none,
               remark := none : SubConfig } = cfg := by
        by_contra hne
        simp [ht, hd, hne] at hfx
      subst this
      exact ⟨rfl, fun _ => ⟨rfl, rfl⟩⟩
    | some g =>
      have : { subscriptionID := subID, configLink := trimSpace x,
               protocol := nullStringOf g.protocol,
               remark := nullStringOf g.remark : SubConfig } = cfg := by
        by_contra hne
        simp [ht, hd, hne] at hfx
      subst this
      refine ⟨rfl, fun hnone => ?_⟩
      simp only at hnone
      rw [hd] at hnone
      cases hnone

/-! ## Fragment handling of the URL parser -/

theorem urlParseInner_fragment (s : ByteStr) (u : GoUrl) (h : urlParseInner s = some u) :
    u.fragment = [] := by
  unfold urlParseInner at h
  simp only [] at h
  repeat' split at h
  all_goals cases h
  all_goals rfl

theorem goUrlParse_fragment (link : ByteStr) (uri : GoUrl) (h : goUrlParse link = some uri) :
    unescape .fragment (afterHash link) = some uri.fragment := by
  unfold goUrlParse at h
  simp only [] at h
  rw [afterHash]
  cases hI : urlParseInner (cut3 35 link).1 with
  | none => rw [hI] at h; cases h
  | some url =>
    rw [hI] at h
    simp only [] at h
    by_cases hf : (cut3 35 link).2.1 = []
    · rw [if_pos hf] at h
      obtain rfl := Option.some.inj h
      rw [hf, urlParseInner_fragment _ _ hI]
      rfl
    · rw [if_neg hf] at h
      cases hu : unescape .fragment (cut3 35 link).2.1 with
      | none => rw [hu] at h; cases h
      | some f =>
        rw [hu] at h
        obtain rfl := Option.some.inj h
        rfl

theorem wireguardFromUri_remark (uri : GoUrl) (w : WireguardCfg)
    (h : wireguardFromUri uri = some w) :
    w.remark = (unescape .pathSegment uri.fragment).getD uri.fragment := by
  unfold wireguardFromUri at h
  simp only [] at h
  split at h
  · cases h
  · cases hu : unescape .pathSegment uri.fragment with
    | none => rw [hu] at h; obtain rfl := Option.some.inj h; simp [hu]
    | some r => rw [hu] at h; obtain rfl := Option.some.inj h; simp [hu]

theorem runSource_foldl {α : Type} (o : Oracles) (doTs : Bool) (u : α → ByteStr)
    (sid : α → Option Int) (srcs : List α) : ∀ acc : MultiResult,
    srcs.foldl (fun acc s => runSource o (u s) (sid s) doTs acc) acc =
      { allConfigs := acc.allConfigs ++ srcs.flatMap (fun s => sourceConfigs o (u s) (sid s)),
        totalRaw := acc.totalRaw + (srcs.map (fun s => sourceRaw o (u s) (sid s))).sum,
        failedCount := acc.failedCount + srcs.countP (fun s => sourceFailed o (u s) (sid s)),
        tsAttempted := acc.tsAttempted ++
          (if doTs then srcs.flatMap (fun s => sourceTs o (u s) (sid s)) else []),
        outcome := acc.outcome } := by
  induction srcs with
  | nil => intro acc; simp
  | cons s ss ih =>
    intro acc
    rw [List.foldl_cons, ih]
    have hone : runSource o (u s) (sid s) doTs acc =
        { allConfigs := acc.allConfigs ++ sourceConfigs o (u s) (sid s),
          totalRaw := acc.totalRaw + sourceRaw o (u s) (sid s),
          failedCount := acc.failedCount + (if sourceFailed o (u s) (sid s) then 1 else 0),
          tsAttempted := acc.tsAttempted ++ (if doTs then sourceTs o (u s) (sid s) else []),
          outcome := acc.outcome } := by
      unfold runSource sourceConfigs sourceRaw sourceFailed sourceTs
      cases hres : (fetchAllM (u s) o.net).result with
      | error e => simp
      | ok raw =>
        by_cases hemp : (parseLinks o.decodeProto raw (sid s)).isEmpty
        · simp [hemp]
        · by_cases hup : o.upsertOk (u s)
          · cases doTs <;> simp [hemp, hup]
          · simp [hemp, hup]
    rw [hone]
    cases doTs <;> simp [List.countP_cons, MultiResult.mk.injEq] <;> omega

/-! ## Outcome characterisation of the fan-out runs -/

theorem finishRun_eq_none (of : ByteStr) (wOk : Bool) (res : MultiResult) (total : Nat) :
    (finishRun of wOk res total = none ↔
      res.failedCount = 0 ∧ (of = [] ∨ res.allConfigs.isEmpty = true ∨ wOk = true)) := by
  by_cases h1 : of = [] <;> by_cases h2 : res.allConfigs.isEmpty = true <;>
    by_cases h3 : wOk = true <;> by_cases h4 : res.failedCount = 0 <;>
    simp [finishRun, h1, h2, h3, h4, Bool.not_eq_true]

theorem parseLinks_length_eq (d d' : ByteStr → Option GeneralConfig) (raw : List ByteStr)
    (subID subID' : Option Int) :
    (parseLinks d raw subID).length = (parseLinks d' raw subID').length := by
  have h1 := congrArg List.length (parseLinks_map_configLink d raw subID)
  have h2 := congrArg List.length (parseLinks_map_configLink d' raw subID')
  simp only [List.length_map] at h1 h2
  rw [h1, h2]

theorem parseLinks_isEmpty_eq (d d' : ByteStr → Option GeneralConfig) (raw : List ByteStr)
    (subID subID' : Option Int) :
    (parseLinks d raw subID).isEmpty = (parseLinks d' raw subID').isEmpty := by
  have e : ∀ (l : List SubConfig), l.isEmpty = decide (l.length = 0) := by
    intro l; cases l <;> simp
  rw [e, e, parseLinks_length_eq d d' raw subID subID']

theorem sourceFailed_decodeProto (o : Oracles) (d' : ByteStr → Option GeneralConfig)
    (url : ByteStr) (subID : Option Int) :
    sourceFailed { o with decodeProto := d' } url subID = sourceFailed o url subID := by
  unfold sourceFailed
  cases hres : (fetchAllM url o.net).result with
  | error e => rfl
  | ok raw => simp only [parseLinks_isEmpty_eq d' o.decodeProto raw subID subID]

theorem sourceConfigs_isEmpty_decodeProto (o : Oracles) (d' : ByteStr → Option GeneralConfig)
    (url : ByteStr) (subID : Option Int) :
    (sourceConfigs { o with decodeProto := d' } url subID).isEmpty =
      (sourceConfigs o url subID).isEmpty := by
  unfold sourceConfigs
  cases hres : (fetchAllM url o.net).result with
  | error e => rfl
  | ok raw =>
    have hpe : (parseLinks d' raw subID).isEmpty = (parseLinks o.decodeProto raw subID).isEmpty :=
      parseLinks_isEmpty_eq d' o.decodeProto raw subID subID
    cases he : (parseLinks o.decodeProto raw subID).isEmpty <;>
      rw [he] at hpe <;>
      cases hu : o.upsertOk url <;>
      simp [hpe, he, hu]

theorem flatMap_isEmpty_congr {α : Type} (f g : α → List SubConfig) (l : List α)
    (h : ∀ s, (f s).isEmpty = (g s).isEmpty) :
    (l.flatMap f).isEmpty = (l.flatMap g).isEmpty := by
  induction l with
  | nil => rfl
  | cons x xs ih =>
    have happ : ∀ (a b : List SubConfig), (a ++ b).isEmpty = (a.isEmpty && b.isEmpty) := by
      intro a b; cases a <;> simp
    simp only [List.flatMap_cons, happ, h x, ih]

theorem finishRun_outcome_irrel (of : ByteStr) (wOk : Bool) (res res' : MultiResult) (total : Nat)
    (h1 : res.allConfigs = res'.allConfigs) (h2 : res.failedCount = res'.failedCount) :
    finishRun of wOk res total = finishRun of wOk res' total := by
  unfold finishRun
  rw [h1, h2]

theorem fetchAllSubscriptionsM_spec (c : RunCfg) (subs : List DbSub) (o : Oracles)
    (hlist : o.listOk = true) (hne : (subs.filter (·.enabled)).isEmpty = false) :
    (fetchAllSubscriptionsM c subs o).allConfigs =
      (subs.filter (·.enabled)).flatMap (fun s => sourceConfigs o s.url (some s.id)) ∧
    (fetchAllSubscriptionsM c subs o).failedCount =
      (subs.filter (·.enabled)).countP (fun s => sourceFailed o s.url (some s.id)) ∧
    (fetchAllSubscriptionsM c subs o).outcome =
      finishRun c.outputFile o.writeOk (fetchAllSubscriptionsM c subs o)
        (subs.filter (·.enabled)).length := by
  unfold fetchAllSubscriptionsM
  simp only []
  rw [if_neg (by simp [hlist]), if_neg (by simp [hne]), runSource_foldl]
  refine ⟨by simp [emptyResult], by simp [emptyResult], ?_⟩
  exact finishRun_outcome_irrel _ _ _ _ _ rfl rfl

theorem fetchFromFileM_spec (c : RunCfg) (content : ByteStr) (o : Oracles)
    (hne : (parseFileByNewline content).isEmpty = false) :
    (fetchFromFileM c content o).allConfigs =
      (parseFileByNewline content).flatMap (fun u => sourceConfigs o u none) ∧
    (fetchFromFileM c content o).failedCount =
      (parseFileByNewline content).countP (fun u => sourceFailed o u none) ∧
    (fetchFromFileM c content o).outcome =
      finishRun c.outputFile o.writeOk (fetchFromFileM c content o)
        (parseFileByNewline content).length := by
  unfold fetchFromFileM
  simp only []
  rw [if_neg (by simp [hne]), runSource_foldl]
  refine ⟨by simp [emptyResult], by simp [emptyResult], ?_⟩
  exact finishRun_outcome_irrel _ _ _ _ _ rfl rfl

/-! ## The claims -/

/-- C1 (amended): `FetchAll` issues its HTTP request exactly for URLs that
Go `url.Parse` accepts — which includes relative URLs — and a URL that
`url.Parse` rejects yields the invalid-URL error with no request issued. -/
theorem fetchAll_invalid_url_no_request (url : ByteStr) (net : GoUrl → Option HttpResp) :
    (fetchAllM url net).requested = (goUrlParse url).isSome ∧
    (goUrlParse url = none → fetchAllM url net = ⟨.error .invalidURL, false⟩) := by
  cases hg : goUrlParse url with
  | none => simp [fetchAllM, hg]
  | some u =>
    constructor
    · cases hn : net u with
      | none => simp [fetchAllM, hg, hn]
      | some resp =>
        by_cases hs : resp.statusCode < 200 ∨ 300 ≤ resp.statusCode <;>
          simp [fetchAllM, hg, hn, hs]
    · intro h
      exact absurd h (by simp [hg])

/-- Witness for C1: a URL with a control byte fails `url.Parse`, and
`FetchAll` returns the invalid-URL error without consulting the network. -/
theorem fetchAll_invalid_url_no_request_witness :
    goUrlParse ctlUrl = none ∧ fetchAllM ctlUrl netDown = ⟨.error .invalidURL, false⟩ :=
  ⟨by decide, (fetchAll_invalid_url_no_request ctlUrl netDown).2 (by decide)⟩

/-- C1 counterexample: `example.com` is not an absolute URL, yet `FetchAll`
issues the request (and succeeds on a 200, or reports a transport error —
not an invalid-URL error — when the transport fails). -/
theorem fetchAll_nonabsolute_url_requested :
    (goUrlParse relUrl).map GoUrl.isAbs = some false ∧
    (fetchAllM relUrl netVless).requested = true ∧
    (fetchAllM relUrl netVless).result = .ok [ascii "vless://x"] ∧
    (fetchAllM relUrl netDown).result = .error .transport := by decide

/-- C2: for the wireguard variant the canonical summary does NOT carry the
decoded remark: `Parse` decodes `Home` from the fragment, but
`ConvertToGeneralConfig` sets only the protocol name and the address, so
the summary's remark is empty. -/
theorem wireguard_summary_drops_remark :
    (wireguardParse wgHomeLink).map WireguardCfg.remark = some (ascii "Home") ∧
    wireguardSummary wgHomeLink =
      some { protocol := ascii "wireguard", remark := [], address := ascii "1.2.3.4:51820" } ∧
    ascii "Home" ≠ ([] : ByteStr) := by decide

/-- C3 (amended): for every body that is not itself valid base64, feeding
its standard-base64 encoding through the retriever's body decoding yields
exactly the same link sequence as feeding the plain body. -/
theorem decodeBody_base64_roundtrip (L : ByteStr) (h256 : ∀ b ∈ L, b < 256)
    (hplain : b64decode L = none) : decodeBody (b64encode L) = decodeBody L := by
  unfold decodeBody
  rw [b64decode_b64encode L h256, hplain]

/-- Witness for C3: a two-line plain link list decodes identically through
its base64 encoding. -/
theorem decodeBody_base64_roundtrip_witness :
    decodeBody (b64encode plainLinks) = decodeBody plainLinks :=
  decodeBody_base64_roundtrip plainLinks (by decide) (by decide)

/-- C3 counterexample: a body that is itself valid base64 is decoded, so
feeding it plainly and feeding its encoding produce different links. -/
theorem decodeBody_base64_fixed_point_counterexample :
    decodeBody (b64encode b64SelfDecoding) ≠ decodeBody b64SelfDecoding := by decide

/-- C4: `parseLinks` keeps every non-blank link exactly once, trimmed and
in order, tags each config with the requested subscription id, and a link
the registry cannot decode is kept with absent protocol and remark. -/
theorem parseLinks_retains_all_links (d : ByteStr → Option GeneralConfig)
    (rawLinks : List ByteStr) (subID : Option Int) :
    (parseLinks d rawLinks subID).map (·.configLink) =
      (rawLinks.map trimSpace).filter (fun l => !l.isEmpty) ∧
    ∀ cfg ∈ parseLinks d rawLinks subID, cfg.subscriptionID = subID ∧
      (d cfg.configLink = none → cfg.protocol = none ∧ cfg.remark = none) :=
  ⟨parseLinks_map_configLink d rawLinks subID,
   fun cfg hm => parseLinks_mem d rawLinks subID cfg hm⟩

/-- Witness for C4: with a registry that decodes nothing, a batch with a
blank line keeps both non-blank links, in order, with absent protocol. -/
theorem parseLinks_retains_all_links_witness :
    (parseLinks decodeNone [ascii " vless://x ", [], ascii "bad"] none).map (·.configLink) =
      [ascii "vless://x", ascii "bad"] ∧
    (parseLinks decodeNone [ascii " vless://x ", [], ascii "bad"] none).map SubConfig.protocol =
      [none, none] := by
  have h := parseLinks_retains_all_links decodeNone [ascii " vless://x ", [], ascii "bad"] none
  refine ⟨by rw [h.1]; decide, by decide⟩

/-- C5 (amended): a fragment whose raw text fails percent-decoding fails
the whole wireguard parse (rather than being kept verbatim); on success
the stored remark is a second percent-decoding of the already-decoded
fragment when that succeeds, and the once-decoded fragment otherwise. -/
theorem wireguard_remark_decoding (link : ByteStr) :
    (unescape .fragment (afterHash link) = none → wireguardParse link = none) ∧
    (∀ w, wireguardParse link = some w → ∀ d, unescape .fragment (afterHash link) = some d →
      w.remark = (unescape .pathSegment d).getD d) := by
  constructor
  · intro hn
    unfold wireguardParse
    split
    · rfl
    · cases hg : goUrlParse link with
      | none => rfl
      | some uri => exact absurd (goUrlParse_fragment link uri hg) (by simp [hn])
  · intro w hw d hd
    unfold wireguardParse at hw
    split at hw
    · cases hw
    · cases hg : goUrlParse link with
      | none => rw [hg] at hw; cases hw
      | some uri =>
        rw [hg] at hw
        rw [Option.some_bind] at hw
        have hfrag := goUrlParse_fragment link uri hg
        rw [hd] at hfrag
        obtain rfl := Option.some.inj hfrag
        exact wireguardFromUri_remark uri w hw

/-- Witness for C5: the invalid escape `%zz` fails the parse, and for the
plain fragment `Home` the remark is its (identity) second decoding. -/
theorem wireguard_remark_decoding_witness :
    wireguardParse wgBadFragLink = none ∧
    wgHomeCfg.remark = (unescape .pathSegment (ascii "Home")).getD (ascii "Home") :=
  ⟨(wireguard_remark_decoding wgBadFragLink).1 (by decide),
   (wireguard_remark_decoding wgHomeLink).2 wgHomeCfg (by decide) (ascii "Home") (by decide)⟩

/-- C5 counterexample: the fragment `%2541` percent-decodes successfully to
`%41`, but the stored remark is the doubly-decoded `A`; and a fragment
failing percent-decoding fails the parse instead of being kept verbatim. -/
theorem wireguard_remark_double_decode_counterexample :
    unescape .fragment (afterHash wgEscLink) = some (ascii "%41") ∧
    (wireguardParse wgEscLink).map WireguardCfg.remark = some (ascii "A") ∧
    ascii "A" ≠ ascii "%41" ∧
    wireguardParse wgBadFragLink = none := by decide

/-- C6: `RemoveDuplicate` returns the first-occurrence deduplication of its
input: the spec-level dedupe, unaffected by the verbose flag, with length
the number of distinct raw strings. -/
theorem removeDuplicate_spec (v v' : Bool) (links : List ByteStr) :
    removeDuplicate v links = dedupeSpec links ∧
    removeDuplicate v links = removeDuplicate v' links ∧
    (removeDuplicate v links).length = links.toFinset.card := by
  refine ⟨removeDuplicate_eq_dedupeSpec v links, ?_, ?_⟩
  · rw [removeDuplicate_eq_dedupeSpec, removeDuplicate_eq_dedupeSpec]
  · rw [removeDuplicate_eq_dedupeSpec, dedupeSpec_length]

/-- C7: a worker count outside `[1, 20]` makes the command fail during flag
validation — independently of (and without running) the run body — while a
worker count inside the range is never what validation rejects. -/
theorem validateFlags_workers_range {α : Type} (c : RunCfg) (runner runner' : RunCfg → α) :
    ((c.workers < 1 ∨ 20 < c.workers) →
      fetchCommandRun c runner = fetchCommandRun c runner' ∧
      exceptFailed (fetchCommandRun c runner) = true) ∧
    (1 ≤ c.workers → c.workers ≤ 20 → rejectsWorkers (validateFlags c) = false) := by
  constructor
  · intro hw
    cases hv : validateFlags c with
    | some e => simp [fetchCommandRun, hv, exceptFailed]
    | none =>
      exfalso
      unfold validateFlags at hv
      split at hv
      · cases hv
      · split at hv
        · cases hv
        · split at hv
          · cases hv
          · omega
  · intro h1 h2
    unfold validateFlags
    split
    · simp [rejectsWorkers]
    · split
      · next h => omega
      · split
        · next h => omega
        · simp [rejectsWorkers]

/-- Witness for C7: worker count 0 fails validation regardless of the run
body, and worker count 3 is not rejected for its worker count. -/
theorem validateFlags_workers_range_witness :
    (fetchCommandRun cfgAll0 runnerA = fetchCommandRun cfgAll0 runnerB ∧
      exceptFailed (fetchCommandRun cfgAll0 runnerA) = true) ∧
    rejectsWorkers (validateFlags cfgAll3) = false :=
  ⟨(validateFlags_workers_range cfgAll0 runnerA runnerB).1 (by decide),
   (validateFlags_workers_range cfgAll3 runnerA runnerB).2 (by decide) (by decide)⟩

/-- C8 (amended): with the listing step succeeding and at least one enabled
source, a fan-out run succeeds exactly when no source failed AND the final
output-file write step did not fail (no output file configured, nothing to
write, or the write succeeded); the aggregate config list is exactly the
concatenation of the succeeded sources' configs (kept even when other
sources failed); the failure counter counts failed sources; and the
protocol registry — hence any link-level decode failure — can change
neither the failure counter nor success of the outcome.  The file-list
mode satisfies the same outcome characterisation. -/
theorem multiRun_outcome_spec (c : RunCfg) (subs : List DbSub) (content : ByteStr)
    (o : Oracles) (d' : ByteStr → Option GeneralConfig) (hlist : o.listOk = true)
    (hne : (subs.filter (·.enabled)).isEmpty = false) :
    ((fetchAllSubscriptionsM c subs o).outcome = none ↔
      (fetchAllSubscriptionsM c subs o).failedCount = 0 ∧
        (c.outputFile = [] ∨ (fetchAllSubscriptionsM c subs o).allConfigs.isEmpty = true ∨
          o.writeOk = true)) ∧
    (fetchAllSubscriptionsM c subs o).allConfigs =
      (subs.filter (·.enabled)).flatMap (fun s => sourceConfigs o s.url (some s.id)) ∧
    (fetchAllSubscriptionsM c subs o).failedCount =
      (subs.filter (·.enabled)).countP (fun s => sourceFailed o s.url (some s.id)) ∧
    (fetchAllSubscriptionsM c subs { o with decodeProto := d' }).failedCount =
      (fetchAllSubscriptionsM c subs o).failedCount ∧
    ((fetchAllSubscriptionsM c subs { o with decodeProto := d' }).outcome = none ↔
      (fetchAllSubscriptionsM c subs o).outcome = none) ∧
    ((parseFileByNewline content).isEmpty = false →
      ((fetchFromFileM c content o).outcome = none ↔
        (fetchFromFileM c content o).failedCount = 0 ∧
          (c.outputFile = [] ∨ (fetchFromFileM c content o).allConfigs.isEmpty = true ∨
            o.writeOk = true))) := by
  obtain ⟨hA, hF, hO⟩ := fetchAllSubscriptionsM_spec c subs o hlist hne
  have hlist' : ({ o with decodeProto := d' } : Oracles).listOk = true := hlist
  obtain ⟨hA', hF', hO'⟩ :=
    fetchAllSubscriptionsM_spec c subs { o with decodeProto := d' } hlist' hne
  have hFeq : (fetchAllSubscriptionsM c subs { o with decodeProto := d' }).failedCount =
      (fetchAllSubscriptionsM c subs o).failedCount := by
    rw [hF, hF']
    exact List.countP_congr (fun s _ => by rw [sourceFailed_decodeProto])
  have hAeq : (fetchAllSubscriptionsM c subs { o with decodeProto := d' }).allConfigs.isEmpty =
      (fetchAllSubscriptionsM c subs o).allConfigs.isEmpty := by
    rw [hA, hA']
    exact flatMap_isEmpty_congr _ _ _
      (fun s => sourceConfigs_isEmpty_decodeProto o d' s.url (some s.id))
  refine ⟨by rw [hO, finishRun_eq_none], hA, hF, hFeq, ?_, ?_⟩
  · rw [hO, hO', finishRun_eq_none, finishRun_eq_none]
    have hw : ({ o with decodeProto := d' } : Oracles).writeOk = o.writeOk := rfl
    rw [hFeq, hAeq, hw]
  · intro hne'
    obtain ⟨_, _, hOf⟩ := fetchFromFileM_spec c content o hne'
    rw [hOf, finishRun_eq_none]

/-- Witness for C8: a fully-successful one-source run has a success
outcome, and its aggregate list is that source's configs. -/
theorem multiRun_outcome_spec_witness :
    (fetchAllSubscriptionsM cfgDefault [subA] oraVless).outcome = none ∧
    (fetchAllSubscriptionsM cfgDefault [subA] oraVless).allConfigs =
      [{ subscriptionID := some 1, configLink := ascii "vless://x",
         protocol := none, remark := none }] := by
  have h := multiRun_outcome_spec cfgDefault [subA] (ascii "u\n") oraVless decodeNone
    (by decide) (by decide)
  refine ⟨h.1.mpr ⟨by decide, by decide⟩, by rw [h.2.1]; decide⟩

/-- C8 counterexample: every source succeeds (failure counter is zero), yet
the run returns a failing outcome because writing the output file failed. -/
theorem multiRun_write_failure_counterexample :
    (fetchAllSubscriptionsM cfgDefault [subA] oraVlessNoWrite).failedCount = 0 ∧
    (fetchAllSubscriptionsM cfgDefault [subA] oraVlessNoWrite).outcome = some .writeFile := by
  decide

/-- C9 (amended): in a by-id run, the timestamp update is attempted as soon
as the fetch succeeded with at least one parsed config and the upsert
succeeded; and the timestamp oracle's failure is invisible to the whole
result (the source only logs it). -/
theorem doFetch_timestamp_spec (outputFile url : ByteStr) (id : Int) (o : Oracles) :
    (∀ rawLinks, (fetchAllM url o.net).result = .ok rawLinks →
      (parseLinks o.decodeProto rawLinks (some id)).isEmpty = false →
      o.upsertOk url = true →
      (doFetchM outputFile url (some id) o).tsAttempted = true) ∧
    (∀ b, doFetchM outputFile url (some id) { o with tsOk := b } =
          doFetchM outputFile url (some id) o) := by
  constructor
  · intro raw hres hemp hup
    unfold doFetchM
    rw [hres]
    simp only []
    rw [if_neg (by simp [hemp])]
    rw [if_neg (by simp [hup])]
    split <;> simp
  · intro b
    rfl

/-- Witness for C9: a successful fetch of one link with a working store
attempts the timestamp update, and flipping the timestamp oracle changes
nothing. -/
theorem doFetch_timestamp_spec_witness :
    (doFetchM (ascii "configs.txt") (ascii "http://a") (some 1) oraVless).tsAttempted = true ∧
    doFetchM (ascii "configs.txt") (ascii "http://a") (some 1) { oraVless with tsOk := false } =
      doFetchM (ascii "configs.txt") (ascii "http://a") (some 1) oraVless :=
  ⟨(doFetch_timestamp_spec (ascii "configs.txt") (ascii "http://a") 1 oraVless).1
      [ascii "vless://x"] (by decide) (by decide) (by decide),
   (doFetch_timestamp_spec (ascii "configs.txt") (ascii "http://a") 1 oraVless).2 false⟩

/-- C9 counterexample: a by-id run whose fetch succeeds with an empty body
ends successfully WITHOUT attempting the timestamp update (the early
no-configs return skips it), refuting "updated whenever fetch succeeds". -/
theorem doFetch_empty_fetch_no_timestamp :
    (fetchAllM (ascii "http://a") oraEmptyBody.net).result = .ok [] ∧
    doFetchM (ascii "configs.txt") (ascii "http://a") (some 1) oraEmptyBody =
      ⟨none, false⟩ := by decide

/-- C10: with zero enabled subscriptions the all-enabled run returns plain
success having fetched, saved and attempted nothing, whereas a file-mode
run over a file with zero non-blank URLs fails with the no-URLs error
before processing any source. -/
theorem zero_work_asymmetry (c : RunCfg) (subs : List DbSub) (content : ByteStr) (o : Oracles)
    (hlist : o.listOk = true) (hdis : ∀ s ∈ subs, s.enabled = false)
    (hempty : parseFileByNewline content = []) :
    fetchAllSubscriptionsM c subs o = emptyResult ∧
    fetchFromFileM c content o = { emptyResult with outcome := some .noUrls } := by
  constructor
  · unfold fetchAllSubscriptionsM
    simp only []
    rw [if_neg (by simp [hlist])]
    have hfil : subs.filter (·.enabled) = [] :=
      List.filter_eq_nil_iff.mpr (by intro a ha; simp [hdis a ha])
    rw [hfil]
    rfl
  · unfold fetchFromFileM
    simp only []
    rw [hempty]
    rfl

/-- Witness for C10: one disabled subscription and a whitespace-only file. -/
theorem zero_work_asymmetry_witness :
    fetchAllSubscriptionsM cfgDefault [subDisabled] oraVless = emptyResult ∧
    fetchFromFileM cfgDefault (ascii "\n  \n") oraVless =
      { emptyResult with outcome := some .noUrls } :=
  zero_work_asymmetry cfgDefault [subDisabled] (ascii "\n  \n") oraVless
    (by decide) (by decide) (by decide)
